import Mathlib

/-!
Shallow embedding of `src/src/contracts/carbon-marketplace.py` (a PyTeal
Algorand smart contract, class `CarbonMarketplace`).

Modelling conventions, matching the execution model of the source:
* Caller identities (`Txn.sender()`, `Global.creator_address()`,
  `Global.current_application_address()`, addresses) are `Nat`.
* TEAL `uint64` global/local state values are `Nat`; unset keys read as the
  zero value, exactly as `App.globalGet` / `App.localGet` do on Algorand.
* A PyTeal `Seq` of `Assert`s and `App.globalPut`/`App.localPut` calls runs
  sequentially inside one atomic transaction; a failed `Assert` rejects the
  whole transaction, committing nothing.  Each ABI method is therefore a
  function `... -> Except MarketErr MarketState`: `.ok s'` is the committed
  state of an approved transaction, `.error e` an assertion failure that
  leaves the chain state untouched.
* The global key/value store is split by key shape: `project_{id}` records
  (keyed by the `Itob`-encoded id), the five scalar globals, and the audit
  records `purchase_{sender}_{ts}` / `retirement_{sender}_{ts}` /
  `transfer_{ts}` (the fixed-width `Itob`/address encodings make these key
  families injective and mutually disjoint, so they are modelled as typed
  association lists).  `App.globalPut` on an existing key overwrites it,
  which `insertA` reproduces.
* Per-user local state (`credits_owned`, `credits_retired`) is the
  `accounts` association list, defaulting to the zero `Account`.
-/

/-- Identities (senders, the contract creator, the application address). -/
abbrev Addr := Nat

/-- The `payment : abi.PaymentTransaction` argument of `purchase_credits`:
only its `receiver()` and `amount()` are inspected by the contract. -/
structure PaymentTxn where
  receiver : Addr
  amount : Nat
  deriving DecidableEq, Repr

/-- A `project_{id}` record, the fields packed by `register_project`. -/
structure Project where
  name : String
  project_type : Nat
  verification_standard : Nat
  total_credits : Nat
  price_per_unit : Nat
  vintage : Nat
  deriving DecidableEq, Repr

/-- Per-user local state: the `credits_owned` and `credits_retired` keys. -/
structure Account where
  credits_owned : Nat
  credits_retired : Nat
  deriving DecidableEq, Repr

/-- The value of an unset local-state pair (`App.localGet` of unset keys). -/
def acct0 : Account := ⟨0, 0⟩

/-- The value of an unset `project_{id}` key. -/
def proj0 : Project := ⟨"", 0, 0, 0, 0, 0⟩

/-- Keys of the audit records written by the three mutating user
operations, in their source shapes `purchase_{sender}_{ts}`,
`retirement_{sender}_{ts}` and `transfer_{ts}`. -/
inductive AuditKey where
  | purchase (sender : Addr) (ts : Nat)
  | retirement (sender : Addr) (ts : Nat)
  | transfer (ts : Nat)
  deriving DecidableEq, Repr

/-- Payloads of the audit records (the `Concat`-packed values). -/
inductive AuditVal where
  | purchaseV (project_id quantity amount_paid : Nat)
  | retirementV (quantity : Nat) (reason beneficiary : String)
  | transferV (sender recipient : Addr) (quantity : Nat)
  deriving DecidableEq, Repr

/-- Failure causes.  Each constructor corresponds to one `Assert` in the
source; the contract has no other failure sites (in particular it has no
initialization, project-existence, or already-initialized checks). -/
inductive MarketErr where
  | unauthorized
  | badReceiver
  | insufficientPayment
  | insufficientBalance
  deriving DecidableEq, Repr

/-- Lookup in an association list, returning a default for missing keys
(the `App.globalGet` / `App.localGet` unset-key behaviour). -/
def lookupD {κ β : Type} [DecidableEq κ] (d : β) : List (κ × β) → κ → β
  | [], _ => d
  | (k, v) :: t, a => if a = k then v else lookupD d t a

/-- Store into an association list: overwrite the first binding of the key,
or append a fresh binding (the `App.globalPut` / `App.localPut`
behaviour). -/
def insertA {κ β : Type} [DecidableEq κ] : List (κ × β) → κ → β → List (κ × β)
  | [], a, v => [(a, v)]
  | (k, w) :: t, a, v => if a = k then (a, v) :: t else (k, w) :: insertA t a v

/-- Sum a numeric field over all bindings of an association list. -/
def sumBy {κ β : Type} (f : β → Nat) (l : List (κ × β)) : Nat :=
  (l.map fun p => f p.2).sum

/-- The whole on-chain state of the contract. -/
structure MarketState where
  total_projects : Nat
  total_credits_issued : Nat
  total_credits_retired : Nat
  marketplace_fee : Nat
  admin_address : Addr
  projects : List (Nat × Project)
  accounts : List (Addr × Account)
  audit : List (AuditKey × AuditVal)
  deriving DecidableEq, Repr

/-- The state of a freshly created application: every global and local key
unset, i.e. reading as zero. -/
def genesisState : MarketState :=
  { total_projects := 0, total_credits_issued := 0, total_credits_retired := 0
    marketplace_fee := 0, admin_address := 0
    projects := [], accounts := [], audit := [] }

/-- Read a user's local account pair. -/
def getAcct (l : List (Addr × Account)) (a : Addr) : Account := lookupD acct0 l a

/-- Read a `project_{id}` record. -/
def getProj (l : List (Nat × Project)) (i : Nat) : Project := lookupD proj0 l i

/-- Method `initialize_marketplace(fee_basis_points, admin)`: asserts
`Txn.sender() == Global.creator_address()`, then sets the fee and admin and
zeroes the three aggregate counters.  (The source has no
already-initialized check: the body is the same on every call.) -/
def initialize_marketplace (creator sender : Addr) (fee_basis_points : Nat)
    (admin : Addr) (s : MarketState) : Except MarketErr MarketState :=
  if sender = creator then
    .ok { s with marketplace_fee := fee_basis_points, admin_address := admin
                 total_projects := 0, total_credits_issued := 0
                 total_credits_retired := 0 }
  else .error .unauthorized

/-- Method `register_project(...)`: asserts the sender is the stored admin, writes
the record at key `project_{total_projects}`, increments `total_projects`,
and adds `total_credits` to `total_credits_issued`. -/
def register_project (sender : Addr) (project_name : String)
    (project_type verification_standard total_credits price_per_credit vintage : Nat)
    (s : MarketState) : Except MarketErr MarketState :=
  if sender = s.admin_address then
    .ok { s with
      projects := insertA s.projects s.total_projects
        ⟨project_name, project_type, verification_standard, total_credits,
         price_per_credit, vintage⟩
      total_projects := s.total_projects + 1
      total_credits_issued := s.total_credits_issued + total_credits }
  else .error .unauthorized

/-- Helper `get_project_price(project_id)`: the source reads the stored
`project_{id}` bytes but then ignores them and returns the constant
`Int(1000000)` ("1 ALGO per credit as default"); it never fails, whether or
not the project exists. -/
def get_project_price (s : MarketState) (project_id : Nat) : Nat :=
  let _project_data := getProj s.projects project_id
  1000000

/-- Method `purchase_credits(project_id, quantity, payment)`: asserts the payment
receiver is the application address and the payment amount covers
`quantity * get_project_price(project_id)`; then credits the sender's
`credits_owned` and writes the `purchase_{sender}_{ts}` audit record. -/
def purchase_credits (appAddr sender : Addr) (ts : Nat)
    (project_id quantity : Nat) (payment : PaymentTxn)
    (s : MarketState) : Except MarketErr MarketState :=
  if payment.receiver = appAddr then
    if quantity * get_project_price s project_id ≤ payment.amount then
      let a := getAcct s.accounts sender
      .ok { s with
        accounts := insertA s.accounts sender
          { a with credits_owned := a.credits_owned + quantity }
        audit := insertA s.audit (.purchase sender ts)
          (.purchaseV project_id quantity payment.amount) }
    else .error .insufficientPayment
  else .error .badReceiver

/-- Method `retire_credits(quantity, retirement_reason, beneficiary)`: asserts the
sender owns at least `quantity`, debits `credits_owned`, credits
`credits_retired`, adds `quantity` to `total_credits_retired`, and writes
the `retirement_{sender}_{ts}` audit record. -/
def retire_credits (sender : Addr) (ts : Nat) (quantity : Nat)
    (retirement_reason beneficiary : String)
    (s : MarketState) : Except MarketErr MarketState :=
  let a := getAcct s.accounts sender
  if quantity ≤ a.credits_owned then
    .ok { s with
      accounts := insertA s.accounts sender
        ⟨a.credits_owned - quantity, a.credits_retired + quantity⟩
      total_credits_retired := s.total_credits_retired + quantity
      audit := insertA s.audit (.retirement sender ts)
        (.retirementV quantity retirement_reason beneficiary) }
  else .error .insufficientBalance

/-- Method `transfer_credits(recipient, quantity)`: asserts the sender owns at
least `quantity`, debits the sender, then credits the recipient — the
recipient's balance is read *after* the sender's `localPut`, as in the
source's `Seq` — and writes the `transfer_{ts}` audit record. -/
def transfer_credits (sender : Addr) (ts : Nat) (recipient : Addr)
    (quantity : Nat) (s : MarketState) : Except MarketErr MarketState :=
  let a := getAcct s.accounts sender
  if quantity ≤ a.credits_owned then
    let accounts1 := insertA s.accounts sender
      { a with credits_owned := a.credits_owned - quantity }
    let r := getAcct accounts1 recipient
    .ok { s with
      accounts := insertA accounts1 recipient
        { r with credits_owned := r.credits_owned + quantity }
      audit := insertA s.audit (.transfer ts)
        (.transferV sender recipient quantity) }
  else .error .insufficientBalance

/-- Method `get_user_credits(user)`: pure read of the user's `credits_owned`. -/
def get_user_credits (s : MarketState) (user : Addr) : Nat :=
  (getAcct s.accounts user).credits_owned

/-- The user's `credits_retired` local value (read the same way). -/
def retiredOf (s : MarketState) (user : Addr) : Nat :=
  (getAcct s.accounts user).credits_retired

/-- Method `get_marketplace_stats()`: pure read of the three aggregates (the
source formats them into one string; the content is this triple). -/
def get_marketplace_stats (s : MarketState) : Nat × Nat × Nat :=
  (s.total_projects, s.total_credits_issued, s.total_credits_retired)

/-- One contract call, with its environment inputs (sender, and the block
timestamp for the operations that write timestamped audit keys). -/
inductive Op where
  | init (sender : Addr) (fee : Nat) (admin : Addr)
  | register (sender : Addr) (name : String)
      (ptype vstd credits price vintage : Nat)
  | purchase (sender : Addr) (ts pid qty : Nat) (pay : PaymentTxn)
  | retire (sender : Addr) (ts qty : Nat) (reason beneficiary : String)
  | transfer (sender : Addr) (ts : Nat) (recipient qty : Nat)
  deriving DecidableEq, Repr

/-- Whether an `Op` is an `initialize_marketplace` call. -/
def Op.isInit : Op → Bool
  | .init _ _ _ => true
  | _ => false

/-- Dispatch one call against the state. -/
def stepOp (creator appAddr : Addr) (s : MarketState) :
    Op → Except MarketErr MarketState
  | .init sender fee admin =>
      initialize_marketplace creator sender fee admin s
  | .register sender name ptype vstd credits price vintage =>
      register_project sender name ptype vstd credits price vintage s
  | .purchase sender ts pid qty pay =>
      purchase_credits appAddr sender ts pid qty pay s
  | .retire sender ts qty reason beneficiary =>
      retire_credits sender ts qty reason beneficiary s
  | .transfer sender ts recipient qty =>
      transfer_credits sender ts recipient qty s

/-- Commit a call: a rejected transaction leaves the state unchanged. -/
def applyOp (creator appAddr : Addr) (s : MarketState) (o : Op) : MarketState :=
  match stepOp creator appAddr s o with
  | .ok s1 => s1
  | .error _ => s

/-- Run a sequence of calls. -/
def runOps (creator appAddr : Addr) (s : MarketState) (ops : List Op) :
    MarketState :=
  ops.foldl (applyOp creator appAddr) s

/-- Sum of `total_credits` over all stored project records. -/
def projSum (s : MarketState) : Nat := sumBy Project.total_credits s.projects

/-- Sum of `credits_retired` over all accounts. -/
def retiredSum (s : MarketState) : Nat := sumBy Account.credits_retired s.accounts

/-- The conservation invariant of the spec: the issued aggregate equals the
registry's credit total, and the retired aggregate equals the ledger's
retired total. -/
def Conservation (s : MarketState) : Prop :=
  s.total_credits_issued = projSum s ∧ s.total_credits_retired = retiredSum s

instance (s : MarketState) : Decidable (Conservation s) := by
  unfold Conservation; infer_instance

/-- Every stored project id is below the `total_projects` counter (holds
along any initialize-free run, and makes the registered ids exactly the
range `[0, total_projects)`). -/
def KeysBound (s : MarketState) : Prop :=
  ∀ p ∈ s.projects, p.1 < s.total_projects

/-- Whether an `Except` result is an approved transaction. -/
def isApproved (e : Except MarketErr MarketState) : Bool :=
  match e with
  | .ok _ => true
  | .error _ => false

/-- Demo state: creator `1` initializes (admin `2`), who registers
"Forest X" with 1000 credits at stored price 50 (the issuance scenario of
the spec; application address `99`). -/
def forestState : MarketState :=
  runOps 1 99 genesisState
    [.init 1 100 2, .register 2 "Forest X" 1 1 1000 50 2023]

/-- Demo state: freshly initialized marketplace (creator `1`, admin `2`),
no projects, no balances. -/
def initializedState : MarketState :=
  applyOp 1 99 genesisState (.init 1 100 2)

/-- Demo chain for re-initialization, step 1: buyer `3` purchases 10
credits (paying `10 * 1000000` to the application address). -/
def reinitDemo1 : MarketState :=
  applyOp 1 99 initializedState (.purchase 3 1 0 10 ⟨99, 10000000⟩)

/-- Demo chain step 2: buyer `3` retires all 10 credits. -/
def reinitDemo2 : MarketState :=
  applyOp 1 99 reinitDemo1 (.retire 3 2 10 "offset 2024" "Acme Corp")

/-- Demo chain step 3: the creator calls `initialize_marketplace` again. -/
def reinitState : MarketState := applyOp 1 99 reinitDemo2 (.init 1 100 2)

/-- Demo chain for audit-key collision: buyer `3` holds 5 credits. -/
def auditState0 : MarketState :=
  runOps 1 99 initializedState [.purchase 3 1 0 5 ⟨99, 5000000⟩]

/-- Continuation: buyer `3` transfers 1 credit to `4` at timestamp 7. -/
def auditState1 : MarketState := applyOp 1 99 auditState0 (.transfer 3 7 4 1)

/-- Continuation: buyer `3` transfers 2 more credits to `4`, again at timestamp 7. -/
def auditState2 : MarketState := applyOp 1 99 auditState1 (.transfer 3 7 4 2)

/-- Demo state: account `3` owns 10 credits, none retired. -/
def tenCreditState : MarketState :=
  { genesisState with accounts := [(3, ⟨10, 0⟩)] }

/-- Demo state: account `3` owns 5 credits, account `4` owns none. -/
def fiveCreditState : MarketState :=
  { genesisState with accounts := [(3, ⟨5, 0⟩)] }

/-- Overwrite the stored marketplace config of a state (used to express
that the user operations never read the config). -/
def withConfig (s : MarketState) (fee : Nat) (adm : Addr) : MarketState :=
  { s with marketplace_fee := fee, admin_address := adm }

/-- Map a function over the success state of a result. -/
def mapOk (f : MarketState → MarketState) :
    Except MarketErr MarketState → Except MarketErr MarketState
  | .ok s => .ok (f s)
  | .error e => .error e

/- ------------------------------------------------------------------
Generic lemmas about the key-value store operations.
------------------------------------------------------------------ -/

theorem lookupD_insertA_self {κ β : Type} [DecidableEq κ] (d : β)
    (l : List (κ × β)) (k : κ) (v : β) :
    lookupD d (insertA l k v) k = v := by
  induction l with
  | nil => simp [insertA, lookupD]
  | cons p t ih =>
    obtain ⟨b, w⟩ := p
    by_cases h : k = b
    · simp [insertA, lookupD, h]
    · simp [insertA, lookupD, h, ih]

theorem lookupD_insertA_ne {κ β : Type} [DecidableEq κ] (d : β)
    (l : List (κ × β)) (k k' : κ) (v : β) (h : k' ≠ k) :
    lookupD d (insertA l k v) k' = lookupD d l k' := by
  induction l with
  | nil => simp [insertA, lookupD, h]
  | cons p t ih =>
    obtain ⟨b, w⟩ := p
    by_cases hb : k = b
    · subst hb
      simp [insertA, lookupD, h]
    · by_cases hb' : k' = b
      · simp [insertA, lookupD, hb, hb']
      · simp [insertA, lookupD, hb, hb', ih]

theorem lookupD_eq_default {κ β : Type} [DecidableEq κ] (d : β)
    (l : List (κ × β)) (k : κ) (h : ∀ p ∈ l, p.1 ≠ k) :
    lookupD d l k = d := by
  induction l with
  | nil => rfl
  | cons p t ih =>
    obtain ⟨b, w⟩ := p
    have hb : b ≠ k := h (b, w) (by simp)
    have ht : ∀ p ∈ t, p.1 ≠ k := fun p hp => h p (by simp [hp])
    rw [lookupD, if_neg (fun hk : k = b => hb hk.symm), ih ht]

theorem mem_insertA {κ β : Type} [DecidableEq κ] {l : List (κ × β)}
    {k : κ} {v : β} {q : κ × β} (h : q ∈ insertA l k v) :
    q = (k, v) ∨ q ∈ l := by
  induction l with
  | nil => simpa [insertA] using h
  | cons p t ih =>
    obtain ⟨b, w⟩ := p
    by_cases hb : k = b
    · simp [insertA, hb] at h
      rcases h with h | h
      · exact Or.inl (by simp [h, hb])
      · exact Or.inr (by simp [h])
    · simp [insertA, hb] at h
      rcases h with h | h
      · exact Or.inr (by simp [h])
      · rcases ih h with h' | h'
        · exact Or.inl h'
        · exact Or.inr (by simp [h'])

theorem insertA_mem_self {κ β : Type} [DecidableEq κ] (l : List (κ × β))
    (k : κ) (v : β) : (k, v) ∈ insertA l k v := by
  induction l with
  | nil => simp [insertA]
  | cons p t ih =>
    obtain ⟨b, w⟩ := p
    by_cases hb : k = b
    · simp [insertA, hb]
    · simp [insertA, hb, ih]

theorem mem_insertA_of_ne {κ β : Type} [DecidableEq κ] {l : List (κ × β)}
    {k : κ} {v : β} {q : κ × β} (h : q.1 ≠ k) :
    q ∈ insertA l k v ↔ q ∈ l := by
  induction l with
  | nil =>
    simp [insertA]
    intro hq
    exact absurd (by simp [hq]) h
  | cons p t ih =>
    obtain ⟨b, w⟩ := p
    by_cases hb : k = b
    · subst hb
      simp only [insertA, if_pos rfl]
      constructor
      · intro hq
        rcases List.mem_cons.mp hq with hq | hq
        · exact absurd (by simp [hq]) h
        · exact List.mem_cons_of_mem _ hq
      · intro hq
        rcases List.mem_cons.mp hq with hq | hq
        · exact absurd (by simp [hq]) h
        · exact List.mem_cons_of_mem _ hq
    · simp [insertA, hb, ih]

theorem getAcct_insertA_self (l : List (Addr × Account)) (a : Addr) (v : Account) :
    getAcct (insertA l a v) a = v :=
  lookupD_insertA_self acct0 l a v

theorem getAcct_insertA_ne (l : List (Addr × Account)) (a b : Addr) (v : Account)
    (h : b ≠ a) : getAcct (insertA l a v) b = getAcct l b :=
  lookupD_insertA_ne acct0 l a b v h

theorem sumBy_insertA {κ β : Type} [DecidableEq κ] (f : β → Nat) (d : β)
    (hd : f d = 0) (l : List (κ × β)) (k : κ) (v : β) :
    sumBy f (insertA l k v) + f (lookupD d l k) = sumBy f l + f v := by
  induction l with
  | nil => simp [insertA, lookupD, sumBy, hd]
  | cons p t ih =>
    obtain ⟨b, w⟩ := p
    by_cases hb : k = b
    · simp [insertA, lookupD, sumBy, hb]
      omega
    · simp only [insertA, lookupD, if_neg hb, if_neg hb, sumBy, List.map_cons,
        List.sum_cons] at ih ⊢
      omega

/-- Replacing an account binding without changing its `credits_retired`
leaves the ledger's retired total unchanged. -/
theorem retiredSum_insertA_same (l : List (Addr × Account)) (a : Addr)
    (v : Account) (hv : v.credits_retired = (getAcct l a).credits_retired) :
    sumBy Account.credits_retired (insertA l a v)
      = sumBy Account.credits_retired l := by
  have h := sumBy_insertA Account.credits_retired acct0 rfl l a v
  rw [getAcct] at hv
  omega

/-- Replacing an account binding with `credits_retired` increased by `q`
increases the ledger's retired total by `q`. -/
theorem retiredSum_insertA_add (l : List (Addr × Account)) (a : Addr)
    (v : Account) (q : Nat)
    (hv : v.credits_retired = (getAcct l a).credits_retired + q) :
    sumBy Account.credits_retired (insertA l a v)
      = sumBy Account.credits_retired l + q := by
  have h := sumBy_insertA Account.credits_retired acct0 rfl l a v
  rw [getAcct] at hv
  omega

/-- Storing a project record under a fresh id adds its `total_credits` to
the registry's credit total. -/
theorem projSum_insertA_fresh (l : List (Nat × Project)) (k : Nat) (v : Project)
    (hfresh : ∀ p ∈ l, p.1 ≠ k) :
    sumBy Project.total_credits (insertA l k v)
      = sumBy Project.total_credits l + v.total_credits := by
  have h := sumBy_insertA Project.total_credits proj0 rfl l k v
  rw [lookupD_eq_default proj0 l k hfresh] at h
  have h0 : proj0.total_credits = 0 := rfl
  omega

/-- Every call other than `initialize_marketplace` preserves the
conservation invariant together with the project-id bound. -/
theorem strongInv_applyOp (creator appAddr : Addr) (s : MarketState) (o : Op)
    (hc : Conservation s) (hk : KeysBound s) (ho : o.isInit = false) :
    Conservation (applyOp creator appAddr s o)
      ∧ KeysBound (applyOp creator appAddr s o) := by
  obtain ⟨hc1, hc2⟩ := hc
  cases o with
  | init sender fee admin => simp [Op.isInit] at ho
  | register sender name ptype vstd credits price vintage =>
    by_cases h : sender = s.admin_address
    · have happ : applyOp creator appAddr s
          (.register sender name ptype vstd credits price vintage) =
          { s with
            projects := insertA s.projects s.total_projects
              ⟨name, ptype, vstd, credits, price, vintage⟩
            total_projects := s.total_projects + 1
            total_credits_issued := s.total_credits_issued + credits } := by
        simp [applyOp, stepOp, register_project, h]
      have hfresh : ∀ p ∈ s.projects, p.1 ≠ s.total_projects :=
        fun p hp => Nat.ne_of_lt (hk p hp)
      have hsum := projSum_insertA_fresh s.projects s.total_projects
        ⟨name, ptype, vstd, credits, price, vintage⟩ hfresh
      rw [happ]
      refine ⟨⟨?_, ?_⟩, ?_⟩
      · simp only [Conservation, projSum, retiredSum] at *
        simpa [hsum] using by omega
      · simpa [retiredSum] using hc2
      · intro p hp
        rcases mem_insertA hp with h' | h'
        · simp [h']
        · have := hk p h'
          simp at this ⊢
          omega
    · have happ : applyOp creator appAddr s
          (.register sender name ptype vstd credits price vintage) = s := by
        simp [applyOp, stepOp, register_project, h]
      rw [happ]
      exact ⟨⟨hc1, hc2⟩, hk⟩
  | purchase sender ts pid qty pay =>
    by_cases h1 : pay.receiver = appAddr
    · by_cases h2 : qty * get_project_price s pid ≤ pay.amount
      · have happ : applyOp creator appAddr s (.purchase sender ts pid qty pay) =
            { s with
              accounts := insertA s.accounts sender
                { getAcct s.accounts sender with
                  credits_owned := (getAcct s.accounts sender).credits_owned + qty }
              audit := insertA s.audit (.purchase sender ts)
                (.purchaseV pid qty pay.amount) } := by
          simp [applyOp, stepOp, purchase_credits, h1, h2]
        have hsum := retiredSum_insertA_same s.accounts sender
          { getAcct s.accounts sender with
            credits_owned := (getAcct s.accounts sender).credits_owned + qty } rfl
        rw [happ]
        refine ⟨⟨?_, ?_⟩, ?_⟩
        · simpa [projSum] using hc1
        · simp only [retiredSum] at *
          simpa [hsum] using hc2
        · intro p hp
          exact hk p hp
      · have happ : applyOp creator appAddr s (.purchase sender ts pid qty pay) = s := by
          simp [applyOp, stepOp, purchase_credits, h1, h2]
        rw [happ]
        exact ⟨⟨hc1, hc2⟩, hk⟩
    · have happ : applyOp creator appAddr s (.purchase sender ts pid qty pay) = s := by
        simp [applyOp, stepOp, purchase_credits, h1]
      rw [happ]
      exact ⟨⟨hc1, hc2⟩, hk⟩
  | retire sender ts qty reason beneficiary =>
    by_cases h : qty ≤ (getAcct s.accounts sender).credits_owned
    · have happ : applyOp creator appAddr s (.retire sender ts qty reason beneficiary) =
          { s with
            accounts := insertA s.accounts sender
              ⟨(getAcct s.accounts sender).credits_owned - qty,
               (getAcct s.accounts sender).credits_retired + qty⟩
            total_credits_retired := s.total_credits_retired + qty
            audit := insertA s.audit (.retirement sender ts)
              (.retirementV qty reason beneficiary) } := by
        simp [applyOp, stepOp, retire_credits, h]
      have hsum := retiredSum_insertA_add s.accounts sender
        ⟨(getAcct s.accounts sender).credits_owned - qty,
         (getAcct s.accounts sender).credits_retired + qty⟩ qty rfl
      rw [happ]
      refine ⟨⟨?_, ?_⟩, ?_⟩
      · simpa [projSum] using hc1
      · simp only [retiredSum] at *
        simpa [hsum] using by omega
      · intro p hp
        exact hk p hp
    · have happ : applyOp creator appAddr s
          (.retire sender ts qty reason beneficiary) = s := by
        simp [applyOp, stepOp, retire_credits, h]
      rw [happ]
      exact ⟨⟨hc1, hc2⟩, hk⟩
  | transfer sender ts recipient qty =>
    by_cases h : qty ≤ (getAcct s.accounts sender).credits_owned
    · have happ : applyOp creator appAddr s (.transfer sender ts recipient qty) =
          { s with
            accounts :=
              insertA
                (insertA s.accounts sender
                  { getAcct s.accounts sender with
                    credits_owned := (getAcct s.accounts sender).credits_owned - qty })
                recipient
                { getAcct
                    (insertA s.accounts sender
                      { getAcct s.accounts sender with
                        credits_owned :=
                          (getAcct s.accounts sender).credits_owned - qty })
                    recipient with
                  credits_owned :=
                    (getAcct
                      (insertA s.accounts sender
                        { getAcct s.accounts sender with
                          credits_owned :=
                            (getAcct s.accounts sender).credits_owned - qty })
                      recipient).credits_owned + qty }
            audit := insertA s.audit (.transfer ts)
              (.transferV sender recipient qty) } := by
        simp [applyOp, stepOp, transfer_credits, h]
      have hsum1 := retiredSum_insertA_same s.accounts sender
        { getAcct s.accounts sender with
          credits_owned := (getAcct s.accounts sender).credits_owned - qty } rfl
      have hsum2 := retiredSum_insertA_same
        (insertA s.accounts sender
          { getAcct s.accounts sender with
            credits_owned := (getAcct s.accounts sender).credits_owned - qty })
        recipient
        { getAcct
            (insertA s.accounts sender
              { getAcct s.accounts sender with
                credits_owned := (getAcct s.accounts sender).credits_owned - qty })
            recipient with
          credits_owned :=
            (getAcct
              (insertA s.accounts sender
                { getAcct s.accounts sender with
                  credits_owned := (getAcct s.accounts sender).credits_owned - qty })
              recipient).credits_owned + qty } rfl
      rw [happ]
      refine ⟨⟨?_, ?_⟩, ?_⟩
      · simpa [projSum] using hc1
      · simp only [retiredSum] at *
        simpa [hsum2, hsum1] using hc2
      · intro p hp
        exact hk p hp
    · have happ : applyOp creator appAddr s (.transfer sender ts recipient qty) = s := by
        simp [applyOp, stepOp, transfer_credits, h]
      rw [happ]
      exact ⟨⟨hc1, hc2⟩, hk⟩

/-- The conservation invariant (with the id bound) holds after any
initialize-free sequence of calls. -/
theorem strongInv_runOps (creator appAddr : Addr) (s : MarketState)
    (ops : List Op) (hc : Conservation s) (hk : KeysBound s)
    (hops : ∀ o ∈ ops, o.isInit = false) :
    Conservation (runOps creator appAddr s ops)
      ∧ KeysBound (runOps creator appAddr s ops) := by
  induction ops generalizing s with
  | nil => exact ⟨hc, hk⟩
  | cons o t ih =>
    have h1 := strongInv_applyOp creator appAddr s o hc hk (hops o (by simp))
    have h2 := ih (applyOp creator appAddr s o) h1.1 h1.2
      (fun o' ho' => hops o' (by simp [ho']))
    simpa [runOps, List.foldl] using h2

/-- Records under every key other than the written one are untouched by a
store operation. -/
theorem mem_audit_insertA_ne {l : List (AuditKey × AuditVal)} {k k' : AuditKey}
    {v v' : AuditVal} (h : k' ≠ k) :
    (k', v') ∈ insertA l k v ↔ (k', v') ∈ l :=
  mem_insertA_of_ne h

/- ------------------------------------------------------------------
Claim theorems.
------------------------------------------------------------------ -/

/-- C1: the claim fails on the code.  In the spec's own scenario — project
0 registered with stored `price_per_unit = 50` — the purchase of 10 credits
with payment 500 (which is exactly `quantity * stored price`) is rejected
with `InsufficientPayment`, because `get_project_price` ignores the stored
record and returns the constant 1000000, so the required amount is
10000000 (payment 400 is likewise rejected). -/
theorem C1_price_stub_bug :
    (getProj forestState.projects 0).price_per_unit = 50 ∧
    get_project_price forestState 0 = 1000000 ∧
    purchase_credits 99 3 5 0 10 ⟨99, 500⟩ forestState
      = .error .insufficientPayment ∧
    purchase_credits 99 3 5 0 10 ⟨99, 400⟩ forestState
      = .error .insufficientPayment :=
  ⟨rfl, rfl, rfl, rfl⟩

/-- C2 counterexample: a second `initialize_marketplace` call by the
deployer is approved — it does not fail with `AlreadyInitialized`, and it
overwrites the config instead of leaving it unchanged. -/
theorem C2_reinit_counterexample :
    initialize_marketplace 1 1 100 2 genesisState = .ok initializedState ∧
    initialize_marketplace 1 1 200 6 initializedState
      = .ok { initializedState with marketplace_fee := 200, admin_address := 6 } :=
  ⟨rfl, rfl⟩

/-- C2 amended: `initialize_marketplace` has no once-only guard.  Every
call whose sender is the deployer is approved: it (re)sets the fee and
admin, zeroes the three aggregates, and leaves the project registry, the
account ledger, and the audit records unchanged. -/
theorem C2_amended_reinit_allowed (creator : Addr) (fee : Nat) (admin : Addr)
    (s : MarketState) :
    ∃ s1, initialize_marketplace creator creator fee admin s = .ok s1 ∧
      s1.marketplace_fee = fee ∧ s1.admin_address = admin ∧
      s1.total_projects = 0 ∧ s1.total_credits_issued = 0 ∧
      s1.total_credits_retired = 0 ∧ s1.projects = s.projects ∧
      s1.accounts = s.accounts ∧ s1.audit = s.audit := by
  have hstep : initialize_marketplace creator creator fee admin s =
      .ok { s with marketplace_fee := fee, admin_address := admin
                   total_projects := 0, total_credits_issued := 0
                   total_credits_retired := 0 } := by
    simp [initialize_marketplace]
  exact ⟨_, hstep, rfl, rfl, rfl, rfl, rfl, rfl, rfl, rfl⟩

/-- C3 counterexample: in the uninitialized genesis state, a
`purchase_credits` call is approved (crediting the buyer and writing an
audit record) instead of failing with `NotInitialized`. -/
theorem C3_uninitialized_counterexample :
    purchase_credits 99 7 1 0 1 ⟨99, 1000000⟩ genesisState
      = .ok { genesisState with
          accounts := [(7, ⟨1, 0⟩)]
          audit := [(.purchase 7 1, .purchaseV 0 1 1000000)] } :=
  rfl

/-- C3 amended: the contract has no initialization guard at all:
`purchase_credits`, `retire_credits` and `transfer_credits` never read the
marketplace config, so their behaviour is identical in the Uninitialized
and Active states — they succeed or fail solely on their own payment and
balance checks. -/
theorem C3_amended_no_init_guard (appAddr sender : Addr) (ts pid qty : Nat)
    (pay : PaymentTxn) (reason beneficiary : String) (recipient : Addr)
    (fee : Nat) (adm : Addr) (s : MarketState) :
    purchase_credits appAddr sender ts pid qty pay (withConfig s fee adm)
      = mapOk (fun t => withConfig t fee adm)
          (purchase_credits appAddr sender ts pid qty pay s) ∧
    retire_credits sender ts qty reason beneficiary (withConfig s fee adm)
      = mapOk (fun t => withConfig t fee adm)
          (retire_credits sender ts qty reason beneficiary s) ∧
    transfer_credits sender ts recipient qty (withConfig s fee adm)
      = mapOk (fun t => withConfig t fee adm)
          (transfer_credits sender ts recipient qty s) := by
  refine ⟨?_, ?_, ?_⟩
  · by_cases h1 : pay.receiver = appAddr
    · by_cases h2 : qty * 1000000 ≤ pay.amount
      · simp [purchase_credits, withConfig, mapOk, get_project_price, h1, h2]
      · simp [purchase_credits, withConfig, mapOk, get_project_price, h1, h2]
    · simp [purchase_credits, withConfig, mapOk, h1]
  · by_cases h : qty ≤ (getAcct s.accounts sender).credits_owned
    · simp [retire_credits, withConfig, mapOk, h]
    · simp [retire_credits, withConfig, mapOk, h]
  · by_cases h : qty ≤ (getAcct s.accounts sender).credits_owned
    · simp [transfer_credits, withConfig, mapOk, h]
    · simp [transfer_credits, withConfig, mapOk, h]

/-- C6: the claim fails on the code.  `get_project_price` never fails: on
an unregistered id (here 5, while `total_projects = 0`) it still returns
the stub constant 1000000, and a purchase against that unregistered
project is approved once the payment covers `quantity * 1000000`. -/
theorem C6_missing_notfound_bug :
    initializedState.total_projects = 0 ∧
    get_project_price initializedState 5 = 1000000 ∧
    purchase_credits 99 3 1 5 1 ⟨99, 1000000⟩ initializedState
      = .ok { initializedState with
          accounts := [(3, ⟨1, 0⟩)]
          audit := [(.purchase 3 1, .purchaseV 5 1 1000000)] } :=
  ⟨rfl, rfl, rfl⟩

/-- C4 counterexample: from the initialized state, the approved sequence
purchase(10), retire(10), initialize — every step an approved operation —
ends with `total_credits_retired = 0` while the accounts still carry 10
retired credits, so conservation fails after the third step. -/
theorem C4_conservation_counterexample :
    isApproved (stepOp 1 99 initializedState (.purchase 3 1 0 10 ⟨99, 10000000⟩))
      = true ∧
    isApproved (stepOp 1 99 reinitDemo1 (.retire 3 2 10 "offset 2024" "Acme Corp"))
      = true ∧
    isApproved (stepOp 1 99 reinitDemo2 (.init 1 100 2)) = true ∧
    Conservation reinitDemo2 ∧
    reinitState.total_credits_retired = 0 ∧ retiredSum reinitState = 10 ∧
    ¬ Conservation reinitState :=
  ⟨rfl, rfl, rfl, by decide, rfl, rfl, by decide⟩

/-- C4 amended: conservation does hold after every step of every
`initialize`-free operation sequence from the freshly initialized state;
the restriction is forced because re-initialization zeroes the aggregates
while the registry and the per-account retired balances persist. -/
theorem C4_amended_conservation (creator appAddr : Addr) (fee : Nat)
    (admin : Addr) (s0 : MarketState) (ops : List Op)
    (h0 : initialize_marketplace creator creator fee admin genesisState = .ok s0)
    (hops : ∀ o ∈ ops, o.isInit = false) :
    Conservation (runOps creator appAddr s0 ops) := by
  have hs0 : s0 = { genesisState with marketplace_fee := fee, admin_address := admin } := by
    simp [initialize_marketplace, genesisState] at h0
    exact h0.symm
  subst hs0
  refine (strongInv_runOps creator appAddr _ ops ?_ ?_ hops).1
  · exact ⟨by simp [Conservation, projSum, retiredSum, sumBy, genesisState],
           by simp [Conservation, projSum, retiredSum, sumBy, genesisState]⟩
  · intro p hp
    simp [genesisState] at hp

/-- C4 witness: conservation after a concrete register/purchase/retire/
transfer run from the initialized state. -/
theorem C4_amended_conservation_witness :
    Conservation (runOps 1 99 initializedState
      [.register 2 "Forest X" 1 1 1000 50 2023,
       .purchase 3 4 0 10 ⟨99, 10000000⟩,
       .retire 3 5 4 "offset 2024" "Acme Corp",
       .transfer 3 6 4 2]) :=
  C4_amended_conservation 1 99 100 2 initializedState
    [.register 2 "Forest X" 1 1 1000 50 2023,
     .purchase 3 4 0 10 ⟨99, 10000000⟩,
     .retire 3 5 4 "offset 2024" "Acme Corp",
     .transfer 3 6 4 2] rfl (by decide)

/-- C5 counterexample: two approved `transfer_credits` calls at the same
block timestamp derive the same audit key `transfer_{7}`, and the second
call overwrites the first call's audit record — the entry
`(transfer 7, transferV 3 4 1)` exists after the first call and is gone
after the second. -/
theorem C5_audit_overwrite_counterexample :
    isApproved (transfer_credits 3 7 4 1 auditState0) = true ∧
    isApproved (transfer_credits 3 7 4 2 auditState1) = true ∧
    (AuditKey.transfer 7, AuditVal.transferV 3 4 1) ∈ auditState1.audit ∧
    (AuditKey.transfer 7, AuditVal.transferV 3 4 1) ∉ auditState2.audit :=
  ⟨rfl, rfl, by decide, by decide⟩

/-- C5 amended: each approved mutating call writes exactly one audit
record, at the key derived from its kind, sender, and timestamp; records
under every other key are preserved verbatim.  (Append-only fails only
when two calls derive the same key — then the later call overwrites the
earlier record.) -/
theorem C5_amended_audit_locality (appAddr sender : Addr) (ts pid qty : Nat)
    (pay : PaymentTxn) (reason beneficiary : String) (recipient : Addr)
    (s s1 : MarketState) :
    (purchase_credits appAddr sender ts pid qty pay s = .ok s1 →
      (AuditKey.purchase sender ts, AuditVal.purchaseV pid qty pay.amount)
          ∈ s1.audit ∧
      ∀ k v, k ≠ AuditKey.purchase sender ts →
        ((k, v) ∈ s1.audit ↔ (k, v) ∈ s.audit)) ∧
    (retire_credits sender ts qty reason beneficiary s = .ok s1 →
      (AuditKey.retirement sender ts,
          AuditVal.retirementV qty reason beneficiary) ∈ s1.audit ∧
      ∀ k v, k ≠ AuditKey.retirement sender ts →
        ((k, v) ∈ s1.audit ↔ (k, v) ∈ s.audit)) ∧
    (transfer_credits sender ts recipient qty s = .ok s1 →
      (AuditKey.transfer ts, AuditVal.transferV sender recipient qty)
          ∈ s1.audit ∧
      ∀ k v, k ≠ AuditKey.transfer ts →
        ((k, v) ∈ s1.audit ↔ (k, v) ∈ s.audit)) := by
  refine ⟨?_, ?_, ?_⟩
  · intro h
    simp only [purchase_credits] at h
    split_ifs at h
    rw [Except.ok.injEq] at h
    subst h
    exact ⟨insertA_mem_self _ _ _, fun k v hk => mem_audit_insertA_ne hk⟩
  · intro h
    simp only [retire_credits] at h
    split_ifs at h
    rw [Except.ok.injEq] at h
    subst h
    exact ⟨insertA_mem_self _ _ _, fun k v hk => mem_audit_insertA_ne hk⟩
  · intro h
    simp only [transfer_credits] at h
    split_ifs at h
    rw [Except.ok.injEq] at h
    subst h
    exact ⟨insertA_mem_self _ _ _, fun k v hk => mem_audit_insertA_ne hk⟩

/-- C5 witness: the audit-locality theorem applied to the first transfer
of the demo chain — the transfer record is present afterwards, and the
earlier purchase record is untouched. -/
theorem C5_amended_audit_locality_witness :
    (AuditKey.transfer 7, AuditVal.transferV 3 4 1) ∈ auditState1.audit ∧
    ((AuditKey.purchase 3 1, AuditVal.purchaseV 0 5 5000000) ∈ auditState1.audit
      ↔ (AuditKey.purchase 3 1, AuditVal.purchaseV 0 5 5000000) ∈ auditState0.audit) := by
  have h := (C5_amended_audit_locality 99 3 7 0 1 ⟨99, 1000000⟩
      "offset 2024" "Acme Corp" 4 auditState0 auditState1).2.2 rfl
  exact ⟨h.1, h.2 (.purchase 3 1) (.purchaseV 0 5 5000000) (by decide)⟩

/-- C7: `retire_credits` with sufficient balance is approved and, in one
atomic committed state, debits `credits_owned` by the quantity, credits
`credits_retired` by the quantity, and adds the quantity to
`total_credits_retired`; with insufficient balance it is rejected with
`InsufficientBalance` and the committed state is unchanged. -/
theorem C7_retire_credits_correct (s : MarketState) (creator appAddr sender : Addr)
    (ts qty : Nat) (reason beneficiary : String) :
    (qty ≤ get_user_credits s sender →
      isApproved (retire_credits sender ts qty reason beneficiary s) = true ∧
      get_user_credits (applyOp creator appAddr s (.retire sender ts qty reason beneficiary)) sender
        = get_user_credits s sender - qty ∧
      retiredOf (applyOp creator appAddr s (.retire sender ts qty reason beneficiary)) sender
        = retiredOf s sender + qty ∧
      (applyOp creator appAddr s (.retire sender ts qty reason beneficiary)).total_credits_retired
        = s.total_credits_retired + qty) ∧
    (get_user_credits s sender < qty →
      retire_credits sender ts qty reason beneficiary s = .error .insufficientBalance ∧
      applyOp creator appAddr s (.retire sender ts qty reason beneficiary) = s) := by
  constructor
  · intro h
    have hcond : qty ≤ (getAcct s.accounts sender).credits_owned := h
    refine ⟨?_, ?_, ?_, ?_⟩
    · simp [retire_credits, hcond, isApproved]
    · simp [applyOp, stepOp, retire_credits, hcond, get_user_credits,
        getAcct_insertA_self]
    · simp [applyOp, stepOp, retire_credits, hcond, retiredOf,
        getAcct_insertA_self]
    · simp [applyOp, stepOp, retire_credits, hcond]
  · intro h
    have hcond : ¬ qty ≤ (getAcct s.accounts sender).credits_owned := by
      simp [get_user_credits] at h
      omega
    constructor
    · simp [retire_credits, hcond]
    · simp [applyOp, stepOp, retire_credits, hcond]

/-- C7 witness: account `3` holding 10 credits retires all 10. -/
theorem C7_retire_credits_correct_witness :
    isApproved (retire_credits 3 1 10 "offset 2024" "Acme Corp" tenCreditState) = true ∧
    get_user_credits (applyOp 1 99 tenCreditState (.retire 3 1 10 "offset 2024" "Acme Corp")) 3
      = get_user_credits tenCreditState 3 - 10 ∧
    retiredOf (applyOp 1 99 tenCreditState (.retire 3 1 10 "offset 2024" "Acme Corp")) 3
      = retiredOf tenCreditState 3 + 10 ∧
    (applyOp 1 99 tenCreditState (.retire 3 1 10 "offset 2024" "Acme Corp")).total_credits_retired
      = tenCreditState.total_credits_retired + 10 :=
  (C7_retire_credits_correct tenCreditState 1 99 3 1 10 "offset 2024" "Acme Corp").1
    (by decide)

/-- C8: for distinct sender and recipient, an approved `transfer_credits`
moves exactly the quantity from sender to recipient; with insufficient
sender balance it is rejected with `InsufficientBalance` (aborting before
any credit), leaving the committed state — hence both balances —
unchanged. -/
theorem C8_transfer_credits_correct (s : MarketState) (creator appAddr sender recipient : Addr)
    (ts qty : Nat) (hne : sender ≠ recipient) :
    (qty ≤ get_user_credits s sender →
      isApproved (transfer_credits sender ts recipient qty s) = true ∧
      get_user_credits (applyOp creator appAddr s (.transfer sender ts recipient qty)) sender
        = get_user_credits s sender - qty ∧
      get_user_credits (applyOp creator appAddr s (.transfer sender ts recipient qty)) recipient
        = get_user_credits s recipient + qty) ∧
    (get_user_credits s sender < qty →
      transfer_credits sender ts recipient qty s = .error .insufficientBalance ∧
      applyOp creator appAddr s (.transfer sender ts recipient qty) = s) := by
  constructor
  · intro h
    have hcond : qty ≤ (getAcct s.accounts sender).credits_owned := h
    refine ⟨?_, ?_, ?_⟩
    · simp [transfer_credits, hcond, isApproved]
    · simp only [applyOp, stepOp, transfer_credits, if_pos hcond, get_user_credits]
      rw [getAcct_insertA_ne _ recipient sender _ hne, getAcct_insertA_self]
    · simp only [applyOp, stepOp, transfer_credits, if_pos hcond, get_user_credits]
      rw [getAcct_insertA_self, getAcct_insertA_ne _ sender recipient _ (Ne.symm hne)]
  · intro h
    have hcond : ¬ qty ≤ (getAcct s.accounts sender).credits_owned := by
      simp [get_user_credits] at h
      omega
    constructor
    · simp [transfer_credits, hcond]
    · simp [applyOp, stepOp, transfer_credits, hcond]

/-- C8 witness: the spec scenario — sender `3` with balance 5 transfers 3
to recipient `4` with balance 0. -/
theorem C8_transfer_credits_correct_witness :
    isApproved (transfer_credits 3 1 4 3 fiveCreditState) = true ∧
    get_user_credits (applyOp 1 99 fiveCreditState (.transfer 3 1 4 3)) 3
      = get_user_credits fiveCreditState 3 - 3 ∧
    get_user_credits (applyOp 1 99 fiveCreditState (.transfer 3 1 4 3)) 4
      = get_user_credits fiveCreditState 4 + 3 :=
  (C8_transfer_credits_correct fiveCreditState 1 99 3 4 1 3 (by decide)).1 (by decide)

/-- C9: `register_project` is rejected with `Unauthorized` for every
sender other than the stored admin and approved for the admin;
`initialize_marketplace` is rejected with `Unauthorized` for every sender
other than the deployer and approved for the deployer; a rejected call
commits no state change. -/
theorem C9_authorization (s : MarketState) (creator appAddr sender : Addr)
    (fee : Nat) (adm : Addr) (name : String)
    (ptype vstd credits price vintage : Nat) :
    (sender ≠ s.admin_address →
      register_project sender name ptype vstd credits price vintage s
        = .error .unauthorized ∧
      applyOp creator appAddr s (.register sender name ptype vstd credits price vintage)
        = s) ∧
    (sender = s.admin_address →
      isApproved (register_project sender name ptype vstd credits price vintage s)
        = true) ∧
    (sender ≠ creator →
      initialize_marketplace creator sender fee adm s = .error .unauthorized ∧
      applyOp creator appAddr s (.init sender fee adm) = s) ∧
    (sender = creator →
      isApproved (initialize_marketplace creator sender fee adm s) = true) := by
  refine ⟨fun h => ⟨?_, ?_⟩, fun h => ?_, fun h => ⟨?_, ?_⟩, fun h => ?_⟩
  · simp [register_project, h]
  · simp [applyOp, stepOp, register_project, h]
  · simp [register_project, h, isApproved]
  · simp [initialize_marketplace, h]
  · simp [applyOp, stepOp, initialize_marketplace, h]
  · simp [initialize_marketplace, h, isApproved]

/-- C9 witness: against the initialized demo state (creator `1`,
admin `2`): sender `3` is rejected by both guarded operations with no
state change, while the admin and the deployer are approved. -/
theorem C9_authorization_witness :
    (register_project 3 "Forest X" 1 1 1000 50 2023 initializedState
        = .error .unauthorized ∧
      applyOp 1 99 initializedState (.register 3 "Forest X" 1 1 1000 50 2023)
        = initializedState) ∧
    isApproved (register_project 2 "Forest X" 1 1 1000 50 2023 initializedState)
      = true ∧
    (initialize_marketplace 1 3 100 2 initializedState = .error .unauthorized ∧
      applyOp 1 99 initializedState (.init 3 100 2) = initializedState) ∧
    isApproved (initialize_marketplace 1 1 100 2 initializedState) = true :=
  ⟨(C9_authorization initializedState 1 99 3 100 2 "Forest X" 1 1 1000 50 2023).1
      (by decide),
   (C9_authorization initializedState 1 99 2 100 2 "Forest X" 1 1 1000 50 2023).2.1
      (by decide),
   (C9_authorization initializedState 1 99 3 100 2 "Forest X" 1 1 1000 50 2023).2.2.1
      (by decide),
   (C9_authorization initializedState 1 99 1 100 2 "Forest X" 1 1 1000 50 2023).2.2.2
      (by decide)⟩

/-- C10: a self-transfer with sufficient balance is approved and leaves
the sender's owned balance exactly where it was: the recipient credit
reads the balance already debited by the sender `localPut`, so debit and
credit compose to the identity. -/
theorem C10_self_transfer_noop (s : MarketState) (creator appAddr sender : Addr)
    (ts qty : Nat) (h : qty ≤ get_user_credits s sender) :
    isApproved (transfer_credits sender ts sender qty s) = true ∧
    get_user_credits (applyOp creator appAddr s (.transfer sender ts sender qty)) sender
      = get_user_credits s sender := by
  have hcond : qty ≤ (getAcct s.accounts sender).credits_owned := h
  constructor
  · simp [transfer_credits, hcond, isApproved]
  · simp only [applyOp, stepOp, transfer_credits, if_pos hcond, get_user_credits]
    rw [getAcct_insertA_self, getAcct_insertA_self]
    simp
    omega

/-- C10 witness: account `3` holding 5 credits transfers 3 to itself and
still holds 5. -/
theorem C10_self_transfer_noop_witness :
    isApproved (transfer_credits 3 1 3 3 fiveCreditState) = true ∧
    get_user_credits (applyOp 1 99 fiveCreditState (.transfer 3 1 3 3)) 3
      = get_user_credits fiveCreditState 3 :=
  C10_self_transfer_noop fiveCreditState 1 99 3 1 3 (by decide)
